import Mathlib

/-!
# Verification of `patch.Field`

Shallow embedding of `src/patch.go` (package `patch`).

The Go type `Field[T]` carries a payload `Value` and a presence flag `Valid`.
Its two methods delegate to the standard library:

* `MarshalJSON` returns `json.Marshal(f.Value)`;
* `UnmarshalJSON` runs `json.Unmarshal(data, &f.Value)` and sets `Valid` when
  that call returned a nil error.

The standard library codec is not part of the repository. It enters the
embedding as a parameter: an encoder `T → Except E Bytes` and a decoder
`Bytes → T → T × Option E`. The decoder receives the current contents of the
target (Go passes a pointer to `f.Value`) and returns the contents of the target
after the call together with the returned error (`none` is Go's `nil`).
-/

namespace patch

/-- Byte strings (Go `[]byte`); every element is a natural number below 256. -/
abbrev Bytes := List Nat

/-- Go: `type Field[T any] struct { Value T; Valid bool }`. -/
structure Field (T : Type) where
  Value : T
  Valid : Bool
  deriving DecidableEq, Repr

/-- Signature of `json.Marshal` at payload type `T`. -/
abbrev Marshal (T E : Type) := T → Except E Bytes

/-- Signature of `json.Unmarshal(data, &v)` at payload type `T`: the bytes and
the target before the call give the target after the call and the error. -/
abbrev Unmarshal (T E : Type) := Bytes → T → T × Option E

/-- Go: `func (f Field[T]) MarshalJSON() ([]byte, error) { return json.Marshal(f.Value) }`. -/
def Field.MarshalJSON {T E : Type} (marshal : Marshal T E) (f : Field T) : Except E Bytes :=
  marshal f.Value

/-- Go:
```
func (f *Field[T]) UnmarshalJSON(data []byte) error {
	err := json.Unmarshal(data, &f.Value)
	if err == nil {
		f.Valid = true
	}
	return err
}
```
The result is the field after the call and the returned error. -/
def Field.UnmarshalJSON {T E : Type} (unmarshal : Unmarshal T E) (f : Field T) (data : Bytes) :
    Field T × Option E :=
  let r := unmarshal data f.Value
  let f1 : Field T := { f with Value := r.1 }
  match r.2 with
  | none => ({ f1 with Valid := true }, none)
  | some err => (f1, some err)

/-! ## The standard library codec on concrete payload types

The definitions below model `encoding/json` (Go standard library, outside the
repository) on the payload types used for the concrete instances: `int`,
`string`, and structures whose members are `Field`s. They follow the package's
documented behaviour: `json.Unmarshal` first checks that the input is one
well-formed JSON value and only then stores into the target.
-/

/-- Errors of `encoding/json`: `*json.SyntaxError` and `*json.UnmarshalTypeError`
(with its `Value` description). -/
inductive JsonError where
  | malformed : JsonError
  | unmarshalType : String → JsonError
  deriving DecidableEq, Repr

/-- Bytes of an ASCII text. -/
def ascii (s : String) : Bytes := s.data.map Char.toNat

/-- JSON insignificant whitespace: space, tab, line feed, carriage return. -/
def isSpace (c : Nat) : Bool := c == 0x20 || c == 0x09 || c == 0x0A || c == 0x0D

/-- Drops leading whitespace. -/
def skipSpace : Bytes → Bytes
  | [] => []
  | c :: rest => if isSpace c then skipSpace rest else c :: rest

/-- Decimal digit `0`..`9`. -/
def isDigit (c : Nat) : Bool := 0x30 ≤ c && c ≤ 0x39

/-- Hexadecimal digit. -/
def isHex (c : Nat) : Bool :=
  isDigit c || (0x41 ≤ c && c ≤ 0x46) || (0x61 ≤ c && c ≤ 0x66)

/-- Drops leading decimal digits. -/
def skipDigits : Bytes → Bytes
  | [] => []
  | c :: rest => if isDigit c then skipDigits rest else c :: rest

/-- Scans a JSON string body (the input starts after the opening quote) and
returns what follows the closing quote. Control characters are rejected and a
backslash must start one of the JSON escapes. -/
def scanString : Nat → Bytes → Option Bytes
  | 0, _ => none
  | _ + 1, [] => none
  | fuel + 1, c :: rest =>
    if c == 0x22 then some rest
    else if c == 0x5C then
      match rest with
      | [] => none
      | e :: rest2 =>
        if e == 0x22 || e == 0x5C || e == 0x2F || e == 0x62 || e == 0x66 || e == 0x6E
            || e == 0x72 || e == 0x74 then scanString fuel rest2
        else if e == 0x75 then
          match rest2 with
          | h1 :: h2 :: h3 :: h4 :: rest3 =>
            if isHex h1 && isHex h2 && isHex h3 && isHex h4 then scanString fuel rest3 else none
          | _ => none
        else none
    else if c < 0x20 then none
    else scanString fuel rest

/-- Scans the optional fraction and exponent of a JSON number. -/
def scanNumberTail (bs : Bytes) : Option Bytes :=
  let afterFrac : Option Bytes :=
    match bs with
    | 0x2E :: d :: rest => if isDigit d then some (skipDigits rest) else none
    | 0x2E :: [] => none
    | _ => some bs
  match afterFrac with
  | none => none
  | some r =>
    match r with
    | e :: rest =>
      if e == 0x65 || e == 0x45 then
        match rest with
        | s :: d :: rest2 =>
          if (s == 0x2B || s == 0x2D) then (if isDigit d then some (skipDigits rest2) else none)
          else if isDigit s then some (skipDigits (d :: rest2))
          else none
        | s :: [] => if isDigit s then some [] else none
        | [] => none
      else some r
    | [] => some []

/-- Scans a JSON number: optional minus, integer part without leading zeros,
optional fraction, optional exponent. -/
def scanNumber (bs : Bytes) : Option Bytes :=
  let body := match bs with
    | 0x2D :: rest => rest
    | _ => bs
  match body with
  | [] => none
  | d :: rest =>
    if d == 0x30 then scanNumberTail rest
    else if isDigit d then scanNumberTail (skipDigits rest)
    else none

/-- Removes the bytes of `lit` from the front of the input when they are there. -/
def dropLiteral (lit : Bytes) (bs : Bytes) : Option Bytes :=
  if lit.isPrefixOf bs then some (bs.drop lit.length) else none

mutual
/-- Scans one JSON value starting at its first byte; returns what follows it. -/
def scanValue : Nat → Bytes → Option Bytes
  | 0, _ => none
  | _ + 1, [] => none
  | fuel + 1, c :: rest =>
    if c == 0x22 then scanString (rest.length + 1) rest
    else if c == 0x7B then
      match skipSpace rest with
      | 0x7D :: after => some after
      | inner => scanMembers fuel inner
    else if c == 0x5B then
      match skipSpace rest with
      | 0x5D :: after => some after
      | inner => scanElements fuel inner
    else if c == 0x6E then dropLiteral (ascii "null") (c :: rest)
    else if c == 0x74 then dropLiteral (ascii "true") (c :: rest)
    else if c == 0x66 then dropLiteral (ascii "false") (c :: rest)
    else scanNumber (c :: rest)
/-- Scans `value (, value)* ]`; the input starts at the first value. -/
def scanElements : Nat → Bytes → Option Bytes
  | 0, _ => none
  | fuel + 1, bs =>
    match scanValue fuel bs with
    | none => none
    | some r =>
      match skipSpace r with
      | 0x2C :: more => scanElements fuel (skipSpace more)
      | 0x5D :: after => some after
      | _ => none
/-- Scans `"key" : value (, "key" : value)* }`; the input starts at the
opening quote of the first key. -/
def scanMembers : Nat → Bytes → Option Bytes
  | 0, _ => none
  | fuel + 1, bs =>
    match bs with
    | 0x22 :: k =>
      match scanString (k.length + 1) k with
      | none => none
      | some r =>
        match skipSpace r with
        | 0x3A :: v =>
          match scanValue fuel (skipSpace v) with
          | none => none
          | some r2 =>
            match skipSpace r2 with
            | 0x2C :: more => scanMembers fuel (skipSpace more)
            | 0x7D :: after => some after
            | _ => none
        | _ => none
    | _ => none
end

/-- The bytes of `bs` in front of its suffix `rest`. -/
def consumed (bs rest : Bytes) : Bytes := bs.take (bs.length - rest.length)

/-- Go `checkValid`: the input is exactly one JSON value surrounded by optional
whitespace. -/
def checkValid (data : Bytes) : Bool :=
  match scanValue (2 * data.length + 2) (skipSpace data) with
  | some rest => (skipSpace rest).isEmpty
  | none => false

/-- The bytes of the single value in a valid input, without the surrounding
whitespace (what the decoder hands to a literal store or to an `Unmarshaler`). -/
def valueBytes (data : Bytes) : Bytes :=
  let bs := skipSpace data
  match scanValue (2 * data.length + 2) bs with
  | some rest => consumed bs rest
  | none => []

/-- Value of a hexadecimal digit. -/
def hexVal (c : Nat) : Nat :=
  if isDigit c then c - 0x30 else if 0x61 ≤ c then c - 0x61 + 10 else c - 0x41 + 10

/-- Go `getu4`: the code unit of a `\uXXXX` escape at the front of the input. -/
def getu4 : Bytes → Option Nat
  | 0x5C :: 0x75 :: h1 :: h2 :: h3 :: h4 :: _ =>
    if isHex h1 && isHex h2 && isHex h3 && isHex h4 then
      some (((hexVal h1 * 16 + hexVal h2) * 16 + hexVal h3) * 16 + hexVal h4)
    else none
  | _ => none

/-- UTF-8 encoding of the replacement character U+FFFD. -/
def replacementBytes : Bytes := [0xEF, 0xBF, 0xBD]

/-- Go `utf8.AppendRune`: UTF-8 encoding of a code point; surrogates and values
above U+10FFFF encode as U+FFFD. -/
def encodeRune (r : Nat) : Bytes :=
  if r < 0x80 then [r]
  else if r < 0x800 then [0xC0 + r / 64, 0x80 + r % 64]
  else if (0xD800 ≤ r && r < 0xE000) || 0x10FFFF < r then replacementBytes
  else if r < 0x10000 then [0xE0 + r / 4096, 0x80 + (r / 64) % 64, 0x80 + r % 64]
  else [0xF0 + r / 262144, 0x80 + (r / 4096) % 64, 0x80 + (r / 64) % 64, 0x80 + r % 64]

/-- UTF-8 continuation byte. -/
def isCont (c : Nat) : Bool := 0x80 ≤ c && c ≤ 0xBF

/-- Length of the well-formed UTF-8 sequence at the front of the input whose
first byte is not ASCII; `0` when there is none (Go `utf8.DecodeRune` then
yields `RuneError` with width 1). -/
def utf8Len : Bytes → Nat
  | b0 :: b1 :: rest =>
    if 0xC2 ≤ b0 && b0 ≤ 0xDF then (if isCont b1 then 2 else 0)
    else if 0xE0 ≤ b0 && b0 ≤ 0xEF then
      let lo := if b0 == 0xE0 then 0xA0 else 0x80
      let hi := if b0 == 0xED then 0x9F else 0xBF
      match rest with
      | b2 :: _ => if lo ≤ b1 && b1 ≤ hi && isCont b2 then 3 else 0
      | [] => 0
    else if 0xF0 ≤ b0 && b0 ≤ 0xF4 then
      let lo := if b0 == 0xF0 then 0x90 else 0x80
      let hi := if b0 == 0xF4 then 0x8F else 0xBF
      match rest with
      | b2 :: b3 :: _ => if lo ≤ b1 && b1 ≤ hi && isCont b2 && isCont b3 then 4 else 0
      | _ => 0
    else 0
  | _ => 0

/-- The character a one-letter escape stands for. -/
def escapeByte (e : Nat) : Nat :=
  if e == 0x62 then 0x08 else if e == 0x66 then 0x0C else if e == 0x6E then 0x0A
  else if e == 0x72 then 0x0D else if e == 0x74 then 0x09 else e

/-- Go `unquoteBytes` on the body of a valid JSON string literal (the bytes
between the quotes): escapes are replaced, `\u` escapes become UTF-8 (surrogate
pairs are combined, a lone surrogate becomes U+FFFD), and ill-formed UTF-8 in
the input becomes U+FFFD. -/
def unquote : Nat → Bytes → Bytes
  | 0, _ => []
  | _ + 1, [] => []
  | fuel + 1, c :: rest =>
    if c == 0x5C then
      match rest with
      | [] => []
      | e :: rest2 =>
        if e == 0x75 then
          match getu4 (c :: rest) with
          | none => []
          | some rr =>
            let after := rest2.drop 4
            if 0xD800 ≤ rr && rr < 0xE000 then
              match getu4 after with
              | some rr1 =>
                if rr < 0xDC00 && 0xDC00 ≤ rr1 && rr1 < 0xE000 then
                  encodeRune ((rr - 0xD800) * 0x400 + (rr1 - 0xDC00) + 0x10000)
                    ++ unquote fuel (after.drop 6)
                else replacementBytes ++ unquote fuel after
              | none => replacementBytes ++ unquote fuel after
            else encodeRune rr ++ unquote fuel after
        else escapeByte e :: unquote fuel rest2
    else if c < 0x80 then c :: unquote fuel rest
    else
      let n := utf8Len (c :: rest)
      if n == 0 then replacementBytes ++ unquote fuel rest
      else (c :: rest).take n ++ unquote fuel (rest.drop (n - 1))

/-- The Go string denoted by a string literal token, quotes included. -/
def unquoteToken (item : Bytes) : Bytes :=
  unquote item.length (item.drop 1).dropLast

/-- Go `strconv.ParseInt(s, 10, 64)` on a JSON number literal: an optional minus
followed by digits only, within the range of `int64`. -/
def parseInt (item : Bytes) : Option Int :=
  let neg := item.head? == some 0x2D
  let ds := if neg then item.drop 1 else item
  if ds.isEmpty || !ds.all isDigit then none
  else
    let n : Nat := ds.foldl (fun acc d => acc * 10 + (d - 0x30)) 0
    if neg then (if n ≤ 2 ^ 63 then some (-(n : Int)) else none)
    else (if n < 2 ^ 63 then some (n : Int) else none)

/-- What kind of JSON value a valid token is, as named in `UnmarshalTypeError.Value`. -/
def kindOf (item : Bytes) : String :=
  match item with
  | 0x22 :: _ => "string"
  | 0x7B :: _ => "object"
  | 0x5B :: _ => "array"
  | 0x74 :: _ => "bool"
  | 0x66 :: _ => "bool"
  | 0x6E :: _ => "null"
  | _ => "number"

/-- Model of `json.Unmarshal(data, &v)` for `v` of Go type `int` (64 bits).
Malformed input is a syntax error; `null` leaves the target as it is and
returns no error; an integer literal in range is stored; every other value is
an `UnmarshalTypeError`. The target changes only when a number is stored. -/
def unmarshalInt : Unmarshal Int JsonError := fun data v =>
  if !checkValid data then (v, some JsonError.malformed)
  else
    let item := valueBytes data
    let kind := kindOf item
    if kind == "null" then (v, none)
    else if kind == "number" then
      match parseInt item with
      | some n => (n, none)
      | none => (v, some (JsonError.unmarshalType "number"))
    else (v, some (JsonError.unmarshalType kind))

/-- Model of `json.Unmarshal(data, &v)` for `v` of Go type `string` (held as its
bytes). A string literal is unquoted and stored; `null` leaves the target as it
is; every other value is an `UnmarshalTypeError`. -/
def unmarshalString : Unmarshal Bytes JsonError := fun data v =>
  if !checkValid data then (v, some JsonError.malformed)
  else
    let item := valueBytes data
    let kind := kindOf item
    if kind == "null" then (v, none)
    else if kind == "string" then (unquoteToken item, none)
    else (v, some (JsonError.unmarshalType kind))

/-- Model of `json.Marshal(v)` for `v` of Go type `int`: the decimal digits,
with a leading minus for a negative value; it never fails. -/
def marshalInt : Marshal Int JsonError := fun v =>
  match v with
  | Int.ofNat n => Except.ok ((Nat.toDigits 10 n).map Char.toNat)
  | Int.negSucc n => Except.ok (0x2D :: (Nat.toDigits 10 (n + 1)).map Char.toNat)

/-! ## Structures whose members are `Field`s

A structure is a family of members indexed by a key type `K`; member `k` is a
`Field (T k)`. The object decoder of `encoding/json` walks the members of the
JSON object in order. For a key that names a member it calls the member's
`UnmarshalJSON` with the raw bytes of the value; other keys are skipped; a
member whose key does not occur is never touched. The first error returned by
a member ends the decode.
-/

/-- A structure with one `Field` per key. -/
abbrev Members {K : Type} (T : K → Type) := (k : K) → Field (T k)

/-- The freshly constructed structure: every member has the zero value of its
type and `Valid = false`. -/
def Members.fresh {K : Type} {T : K → Type} (zero : (k : K) → T k) : Members T :=
  fun k => { Value := zero k, Valid := false }

/-- Splits the body of a valid JSON object into its members: the unquoted key
and the raw bytes of the value. The input starts at the opening quote of the
first key. -/
def splitMembers : Nat → Bytes → List (Bytes × Bytes)
  | 0, _ => []
  | fuel + 1, bs =>
    match bs with
    | 0x22 :: k =>
      match scanString (k.length + 1) k with
      | none => []
      | some r =>
        let key := unquote k.length (consumed k r).dropLast
        match skipSpace r with
        | 0x3A :: v =>
          let vs := skipSpace v
          match scanValue (2 * vs.length + 2) vs with
          | none => []
          | some r2 =>
            (key, consumed vs r2) ::
              (match skipSpace r2 with
               | 0x2C :: more => splitMembers fuel (skipSpace more)
               | _ => [])
        | _ => []
    | _ => []

/-- The members of a valid JSON object token. -/
def objectMembers (item : Bytes) : List (Bytes × Bytes) :=
  match item with
  | 0x7B :: rest => splitMembers item.length (skipSpace rest)
  | _ => []

/-- The object decoder on the members of a JSON object: `UnmarshalJSON` is called
on member `k` exactly for the entries whose key names `k`, in order of
occurrence, and the first error ends the decode. -/
def decodeMembers {K : Type} [DecidableEq K] {T : K → Type} {E : Type}
    (keyOf : Bytes → Option K) (um : (k : K) → Unmarshal (T k) E) :
    List (Bytes × Bytes) → Members T → Members T × Option E
  | [], s => (s, none)
  | (key, raw) :: rest, s =>
    match keyOf key with
    | none => decodeMembers keyOf um rest s
    | some k =>
      let r := Field.UnmarshalJSON (um k) (s k) raw
      let s1 : Members T := Function.update s k r.1
      match r.2 with
      | none => decodeMembers keyOf um rest s1
      | some err => (s1, some err)

/-- The raw values of the entries of a JSON object whose key names member `k`,
in order of occurrence. -/
def rawsFor {K : Type} [DecidableEq K] (keyOf : Bytes → Option K) (k : K)
    (obj : List (Bytes × Bytes)) : List Bytes :=
  obj.filterMap (fun e => if keyOf e.1 = some k then some e.2 else none)

/-- Model of `json.Unmarshal(data, &v)` for `v` a structure of `Field`s: malformed
input is a syntax error, `null` leaves the structure as it is, an object is
decoded member by member, every other value is an `UnmarshalTypeError`. -/
def unmarshalStruct {K : Type} [DecidableEq K] {T : K → Type}
    (keyOf : Bytes → Option K) (um : (k : K) → Unmarshal (T k) JsonError) :
    Unmarshal (Members T) JsonError := fun data s =>
  if !checkValid data then (s, some JsonError.malformed)
  else
    let item := valueBytes data
    let kind := kindOf item
    if kind == "null" then (s, none)
    else if kind == "object" then decodeMembers keyOf um (objectMembers item) s
    else (s, some (JsonError.unmarshalType kind))

/-- ASCII lower case of a byte. -/
def toLower (c : Nat) : Nat := if 0x41 ≤ c && c ≤ 0x5A then c + 0x20 else c

/-- Keys of the example structure
`struct { Name Field[string]; Age Field[int] }`. -/
inductive PersonKey where
  | Name : PersonKey
  | Age : PersonKey
  deriving DecidableEq, Repr

/-- Payload types of the example structure: `string` and `int`. -/
@[reducible]
def PersonKey.T : PersonKey → Type
  | PersonKey.Name => Bytes
  | PersonKey.Age => Int

/-- The example structure `struct { Name Field[string]; Age Field[int] }`. -/
abbrev Person := Members PersonKey.T

/-- Zero values of the members: the empty string and `0`. -/
def PersonKey.zero : (k : PersonKey) → PersonKey.T k
  | PersonKey.Name => ([] : Bytes)
  | PersonKey.Age => (0 : Int)

/-- Key lookup of `encoding/json` for the example structure: a JSON key names a
member when it equals the member's name up to letter case. -/
def PersonKey.keyOf (key : Bytes) : Option PersonKey :=
  let k := key.map toLower
  if k = ascii "name" then some PersonKey.Name
  else if k = ascii "age" then some PersonKey.Age
  else none

/-- The decoder of each member's payload. -/
def PersonKey.unmarshal : (k : PersonKey) → Unmarshal (PersonKey.T k) JsonError
  | PersonKey.Name => unmarshalString
  | PersonKey.Age => unmarshalInt

/-- Model of `json.Unmarshal(data, &p)` for the example structure. -/
def unmarshalPerson : Unmarshal Person JsonError :=
  unmarshalStruct PersonKey.keyOf PersonKey.unmarshal

/-- The fresh example structure. -/
def Person.fresh : Person := Members.fresh PersonKey.zero

/-! ## Sequences of calls -/

/-- The freshly constructed field: zero value, `Valid = false`. -/
def Field.fresh {T : Type} (zero : T) : Field T := { Value := zero, Valid := false }

/-- One method call on a field. -/
inductive Call where
  | marshal : Call
  | unmarshal : Bytes → Call

/-- The field after one call. `MarshalJSON` has a value receiver: it works on a
copy and the caller's field stays as it is. `UnmarshalJSON` has a pointer
receiver and leaves the field it computed. -/
def Field.step {T E : Type} (marshal : Marshal T E) (unmarshal : Unmarshal T E)
    (f : Field T) : Call → Field T
  | Call.marshal => (fun (_ : Except E Bytes) => f) (Field.MarshalJSON marshal f)
  | Call.unmarshal data => (Field.UnmarshalJSON unmarshal f data).1

/-- The field after a sequence of calls. -/
def Field.run {T E : Type} (marshal : Marshal T E) (unmarshal : Unmarshal T E)
    (f : Field T) (calls : List Call) : Field T :=
  calls.foldl (Field.step marshal unmarshal) f

/-- The field after a sequence of `UnmarshalJSON` calls, one per input. -/
def Field.decodeAll {T E : Type} (unmarshal : Unmarshal T E) (f : Field T)
    (inputs : List Bytes) : Field T :=
  inputs.foldl (fun g data => (Field.UnmarshalJSON unmarshal g data).1) f

/-! ## Payload types that are themselves `Field`s or have their own decoder -/

/-- Model of `json.Unmarshal(data, &v)` for `v` of type `Field[T]`, which
implements `json.Unmarshaler`: the input is validated and the method is called
with the bytes of the value. -/
def unmarshalField {T : Type} (um : Unmarshal T JsonError) : Unmarshal (Field T) JsonError :=
  fun data v =>
    if !checkValid data then (v, some JsonError.malformed)
    else Field.UnmarshalJSON um v (valueBytes data)

/-- Model of `json.Marshal(v)` for `v` of type `Field[int]`, which implements
`json.Marshaler`: the method is called and its output is compacted; the decimal
digits it returns are valid JSON without whitespace, so they are the result. -/
def marshalFieldInt : Marshal (Field Int) JsonError :=
  fun v => Field.MarshalJSON marshalInt v

/-- Model of `json.Unmarshal(data, &c)` for a payload type with its own decoder
that counts its calls:
```
type Counter int
func (c *Counter) UnmarshalJSON(data []byte) error { *c++; return nil }
```
The input is validated and the method is called. -/
def unmarshalCounter : Unmarshal Int JsonError := fun data c =>
  if !checkValid data then (c, some JsonError.malformed) else (c + 1, none)

/-! ## Basic facts about `UnmarshalJSON` -/

theorem Field.UnmarshalJSON_of_ok {T E : Type} (um : Unmarshal T E) (f : Field T) (b : Bytes)
    (h : (um b f.Value).2 = none) :
    Field.UnmarshalJSON um f b = ({ Value := (um b f.Value).1, Valid := true }, none) := by
  simp only [Field.UnmarshalJSON, h]

theorem Field.UnmarshalJSON_of_error {T E : Type} (um : Unmarshal T E) (f : Field T) (b : Bytes)
    (e : E) (h : (um b f.Value).2 = some e) :
    Field.UnmarshalJSON um f b = ({ Value := (um b f.Value).1, Valid := f.Valid }, some e) := by
  simp only [Field.UnmarshalJSON, h]

theorem Field.UnmarshalJSON_error_eq {T E : Type} (um : Unmarshal T E) (f : Field T) (b : Bytes) :
    (Field.UnmarshalJSON um f b).2 = (um b f.Value).2 := by
  cases h : (um b f.Value).2 with
  | none => rw [Field.UnmarshalJSON_of_ok um f b h]
  | some e => rw [Field.UnmarshalJSON_of_error um f b e h]

theorem Field.UnmarshalJSON_value_eq {T E : Type} (um : Unmarshal T E) (f : Field T) (b : Bytes) :
    (Field.UnmarshalJSON um f b).1.Value = (um b f.Value).1 := by
  cases h : (um b f.Value).2 with
  | none => rw [Field.UnmarshalJSON_of_ok um f b h]
  | some e => rw [Field.UnmarshalJSON_of_error um f b e h]

theorem Field.UnmarshalJSON_valid_eq {T E : Type} (um : Unmarshal T E) (f : Field T) (b : Bytes) :
    (Field.UnmarshalJSON um f b).1.Valid = (f.Valid || (um b f.Value).2.isNone) := by
  cases h : (um b f.Value).2 with
  | none => rw [Field.UnmarshalJSON_of_ok um f b h]; simp
  | some e => rw [Field.UnmarshalJSON_of_error um f b e h]; simp

/-- The decoder for `int` leaves its target as it was whenever it fails. -/
theorem unmarshalInt_keeps_on_error (b : Bytes) (v : Int)
    (h : (unmarshalInt b v).2 ≠ none) : (unmarshalInt b v).1 = v := by
  unfold unmarshalInt at h ⊢
  dsimp only at h ⊢
  split_ifs at h ⊢ with h1 h2 h3 <;> try rfl
  cases hp : parseInt (valueBytes b) with
  | none => rfl
  | some n => simp [hp] at h

/-- The decoder for `string` leaves its target as it was whenever it fails. -/
theorem unmarshalString_keeps_on_error (b : Bytes) (v : Bytes)
    (h : (unmarshalString b v).2 ≠ none) : (unmarshalString b v).1 = v := by
  unfold unmarshalString at h ⊢
  dsimp only at h ⊢
  split_ifs at h ⊢ with h1 h2 h3 <;> first | rfl | simp at h

/-! ## Claims about a single call -/

/-- C1: for every field `f` and every byte string `b`, if the underlying decode
of `b` into `f.Value` succeeds, then `UnmarshalJSON` returns no error and leaves
the field with `Valid = true` and `Value` equal to the value the underlying
decoder produced. -/
theorem UnmarshalJSON_success {T E : Type} (um : Unmarshal T E) (f : Field T) (b : Bytes)
    (h : (um b f.Value).2 = none) :
    (Field.UnmarshalJSON um f b).2 = none
      ∧ (Field.UnmarshalJSON um f b).1.Valid = true
      ∧ (Field.UnmarshalJSON um f b).1.Value = (um b f.Value).1 := by
  rw [Field.UnmarshalJSON_of_ok um f b h]
  exact ⟨rfl, rfl, rfl⟩

/-- Instance of C1: decoding `42` into a `Field[int]` holding `7` with
`Valid = false` gives no error, `Valid = true` and `Value = 42`. -/
theorem UnmarshalJSON_success_witness :
    (unmarshalInt (ascii "42") 7).2 = none
      ∧ ((Field.UnmarshalJSON unmarshalInt { Value := 7, Valid := false } (ascii "42")).2 = none
        ∧ (Field.UnmarshalJSON unmarshalInt { Value := 7, Valid := false } (ascii "42")).1.Valid
            = true
        ∧ (Field.UnmarshalJSON unmarshalInt { Value := 7, Valid := false } (ascii "42")).1.Value
            = (unmarshalInt (ascii "42") 7).1)
      ∧ (unmarshalInt (ascii "42") 7).1 = 42 :=
  ⟨by decide,
   UnmarshalJSON_success unmarshalInt { Value := 7, Valid := false } (ascii "42") (by decide),
   by decide⟩

/-- C2: for every field `f` and every byte string `b`, if the underlying decode
of `b` fails, then `UnmarshalJSON` returns an error and the `Valid` flag after
the call equals the `Valid` flag before the call. -/
theorem UnmarshalJSON_failure {T E : Type} (um : Unmarshal T E) (f : Field T) (b : Bytes)
    (h : (um b f.Value).2 ≠ none) :
    (Field.UnmarshalJSON um f b).2 ≠ none
      ∧ (Field.UnmarshalJSON um f b).1.Valid = f.Valid := by
  cases he : (um b f.Value).2 with
  | none => exact absurd he h
  | some e =>
    rw [Field.UnmarshalJSON_of_error um f b e he]
    exact ⟨by simp, rfl⟩

/-- Instance of C2: the value `"oops"` of key `age` decoded into a fresh
`Age Field[int]` gives an error and leaves `Valid = false`; decoding the whole
object `{"age":"oops"}` into the fresh structure fails and leaves
`Age.Valid = false`. -/
theorem UnmarshalJSON_failure_witness :
    (unmarshalInt (ascii "\"oops\"") (Field.fresh (0 : Int)).Value).2 ≠ none
      ∧ ((Field.UnmarshalJSON unmarshalInt (Field.fresh 0) (ascii "\"oops\"")).2 ≠ none
        ∧ (Field.UnmarshalJSON unmarshalInt (Field.fresh 0) (ascii "\"oops\"")).1.Valid
            = (Field.fresh (0 : Int)).Valid)
      ∧ (Field.fresh (0 : Int)).Valid = false
      ∧ (unmarshalPerson (ascii "\x7b\"age\":\"oops\"\x7d") Person.fresh).2
          = some (JsonError.unmarshalType "string")
      ∧ ((unmarshalPerson (ascii "\x7b\"age\":\"oops\"\x7d") Person.fresh).1 PersonKey.Age).Valid
          = false :=
  ⟨by decide,
   UnmarshalJSON_failure unmarshalInt (Field.fresh 0) (ascii "\"oops\"") (by decide),
   rfl, by decide, by decide⟩

/-- C3 fails as stated: decoding `{"name":"Ann","age":"oops"}` into a fresh
`Field` whose payload is the structure `{ Name Field[string]; Age Field[int] }`
returns an error, and the payload has changed: its member `Name` was decoded
before the member `Age` failed. -/
theorem UnmarshalJSON_error_changes_Value :
    (Field.UnmarshalJSON unmarshalPerson (Field.fresh Person.fresh)
        (ascii "\x7b\"name\":\"Ann\",\"age\":\"oops\"\x7d")).2 ≠ none
      ∧ (Field.UnmarshalJSON unmarshalPerson (Field.fresh Person.fresh)
          (ascii "\x7b\"name\":\"Ann\",\"age\":\"oops\"\x7d")).1.Value
        ≠ (Field.fresh Person.fresh).Value := by
  refine ⟨by decide, fun h => ?_⟩
  have hv := congrArg (fun p : Person => (p PersonKey.Name).Valid) h
  revert hv
  decide

/-- C3 as amended: when `UnmarshalJSON` returns an error, `Value` after the call
is what the underlying decoder left in the target and `Valid` is as before; so
the field is exactly as before the call whenever the underlying decoder left
its target untouched. -/
theorem UnmarshalJSON_error_Value {T E : Type} (um : Unmarshal T E) (f : Field T) (b : Bytes)
    (h : (Field.UnmarshalJSON um f b).2 ≠ none) :
    (Field.UnmarshalJSON um f b).1.Value = (um b f.Value).1
      ∧ (Field.UnmarshalJSON um f b).1.Valid = f.Valid
      ∧ ((um b f.Value).1 = f.Value → (Field.UnmarshalJSON um f b).1 = f) := by
  rw [Field.UnmarshalJSON_error_eq] at h
  cases he : (um b f.Value).2 with
  | none => exact absurd he h
  | some e =>
    rw [Field.UnmarshalJSON_of_error um f b e he]
    refine ⟨rfl, rfl, fun hk => ?_⟩
    cases f
    simp_all

/-- Instance of C3 as amended: `"oops"` decoded into a `Field[int]` holding `7`
fails and leaves the field as it was. -/
theorem UnmarshalJSON_error_Value_witness :
    (Field.UnmarshalJSON unmarshalInt { Value := 7, Valid := true } (ascii "\"oops\"")).2 ≠ none
      ∧ (unmarshalInt (ascii "\"oops\"") 7).1 = 7
      ∧ (Field.UnmarshalJSON unmarshalInt { Value := 7, Valid := true } (ascii "\"oops\"")).1
          = { Value := 7, Valid := true } :=
  ⟨by decide, by decide,
   (UnmarshalJSON_error_Value unmarshalInt { Value := 7, Valid := true } (ascii "\"oops\"")
      (by decide)).2.2 (by decide)⟩

/-- C4 fails as stated: a `Field[int]` with `Valid = true` that is handed
`"oops"` still has `Valid = true` after the call although the decode failed. -/
theorem UnmarshalJSON_Valid_not_iff_success :
    ¬ ((Field.UnmarshalJSON unmarshalInt { Value := 5, Valid := true } (ascii "\"oops\"")).1.Valid
          = true
        ↔ (Field.UnmarshalJSON unmarshalInt { Value := 5, Valid := true } (ascii "\"oops\"")).2
          = none) := by
  decide

/-- C4 as amended: `Valid` is true after `UnmarshalJSON` if and only if decoding
succeeded in this invocation or `Valid` was already true before the call. -/
theorem UnmarshalJSON_Valid_iff {T E : Type} (um : Unmarshal T E) (f : Field T) (b : Bytes) :
    (Field.UnmarshalJSON um f b).1.Valid = true
      ↔ ((Field.UnmarshalJSON um f b).2 = none ∨ f.Valid = true) := by
  rw [Field.UnmarshalJSON_valid_eq, Field.UnmarshalJSON_error_eq]
  cases (um b f.Value).2 <;> cases f.Valid <;> simp

/-- C5: `MarshalJSON` returns exactly the result of the underlying encode of
`Value`; two fields with equal `Value` encode alike whatever their `Valid`; a
fresh field encodes like the zero value; a `MarshalJSON` call leaves the field
as it is. -/
theorem MarshalJSON_Value_only {T E : Type} (m : Marshal T E) :
    (∀ f : Field T, Field.MarshalJSON m f = m f.Value)
      ∧ (∀ (v : T) (a b : Bool),
          Field.MarshalJSON m { Value := v, Valid := a }
            = Field.MarshalJSON m { Value := v, Valid := b })
      ∧ (∀ zero : T, Field.MarshalJSON m (Field.fresh zero) = m zero)
      ∧ (∀ (um : Unmarshal T E) (f : Field T), Field.step m um f Call.marshal = f) :=
  ⟨fun _ => rfl, fun _ _ _ => rfl, fun _ => rfl, fun _ _ => rfl⟩

/-! ## Round trip -/

/-- C6 fails as stated: take the payload type `Field[int]` and the value
`v = { Value: 5, Valid: false }`. `MarshalJSON` on a field holding `v` yields
`5`; decoding `5` into a fresh `Field[Field[int]]` succeeds with `Valid = true`,
but the decoded `Value` is `{ Value: 5, Valid: true }`, not `v`. -/
theorem roundtrip_fails_for_nested_Field :
    Field.MarshalJSON marshalFieldInt { Value := { Value := 5, Valid := false }, Valid := true }
        = Except.ok (ascii "5")
      ∧ (Field.UnmarshalJSON (unmarshalField unmarshalInt) (Field.fresh (Field.fresh 0))
          (ascii "5")).2 = none
      ∧ (Field.UnmarshalJSON (unmarshalField unmarshalInt) (Field.fresh (Field.fresh 0))
          (ascii "5")).1.Valid = true
      ∧ (Field.UnmarshalJSON (unmarshalField unmarshalInt) (Field.fresh (Field.fresh 0))
          (ascii "5")).1.Value ≠ { Value := 5, Valid := false } :=
  ⟨rfl, by decide, by decide, by decide⟩

/-- C6 as amended: when the underlying codec round-trips `v` (whatever bytes the
encoder yields for `v`, the decoder turns them into `v` when the target holds
the zero value), the output of `MarshalJSON` on a field holding `v`, with
either `Valid` flag, decodes into a fresh field with no error, `Valid = true`
and `Value = v`. -/
theorem roundtrip {T E : Type} (m : Marshal T E) (um : Unmarshal T E) (zero v : T)
    (valid : Bool) (bytes : Bytes)
    (hcodec : ∀ bs, m v = Except.ok bs → um bs zero = (v, none))
    (henc : Field.MarshalJSON m { Value := v, Valid := valid } = Except.ok bytes) :
    Field.UnmarshalJSON um (Field.fresh zero) bytes = ({ Value := v, Valid := true }, none) := by
  have hdec : um bytes zero = (v, none) := hcodec bytes henc
  have h : (um bytes (Field.fresh zero).Value).2 = none := by
    simp [Field.fresh, hdec]
  rw [Field.UnmarshalJSON_of_ok um (Field.fresh zero) bytes h]
  simp [Field.fresh, hdec]

/-- The `int` codec round-trips `-42`. -/
theorem intCodec_roundtrip_neg42 (bs : Bytes) (h : marshalInt (-42) = Except.ok bs) :
    unmarshalInt bs 0 = (-42, none) := by
  have h2 : marshalInt (-42) = Except.ok (ascii "-42") := rfl
  rw [h2] at h
  rw [← Except.ok.inj h]
  decide

/-- Instance of C6 as amended: the `int` value `-42` held in a field with
`Valid = false` encodes to `-42`, which decodes into a fresh `Field[int]` as
`Value = -42`, `Valid = true`. -/
theorem roundtrip_witness :
    Field.MarshalJSON marshalInt { Value := -42, Valid := false } = Except.ok (ascii "-42")
      ∧ Field.UnmarshalJSON unmarshalInt (Field.fresh 0) (ascii "-42")
          = ({ Value := -42, Valid := true }, none) :=
  ⟨rfl,
   roundtrip marshalInt unmarshalInt 0 (-42) false (ascii "-42") intCodec_roundtrip_neg42 rfl⟩

/-! ## Presence detection -/

theorem Field.decodeAll_cons {T E : Type} (um : Unmarshal T E) (f : Field T) (b : Bytes)
    (bs : List Bytes) :
    Field.decodeAll um f (b :: bs) = Field.decodeAll um (Field.UnmarshalJSON um f b).1 bs := rfl

/-- A decode of the members of an object that returns no error leaves each
member as the successive `UnmarshalJSON` calls on its raw values leave it, and
every member with at least one raw value has `Valid = true`. -/
theorem decodeMembers_of_ok {K : Type} [DecidableEq K] {T : K → Type} {E : Type}
    (keyOf : Bytes → Option K) (um : (k : K) → Unmarshal (T k) E)
    (obj : List (Bytes × Bytes)) (s : Members T)
    (h : (decodeMembers keyOf um obj s).2 = none) (k : K) :
    (decodeMembers keyOf um obj s).1 k = Field.decodeAll (um k) (s k) (rawsFor keyOf k obj)
      ∧ (rawsFor keyOf k obj ≠ [] → ((decodeMembers keyOf um obj s).1 k).Valid = true) := by
  induction obj generalizing s with
  | nil => exact ⟨rfl, fun hne => absurd rfl hne⟩
  | cons e rest ih =>
    obtain ⟨key, raw⟩ := e
    cases hk : keyOf key with
    | none =>
      have hd : decodeMembers keyOf um ((key, raw) :: rest) s = decodeMembers keyOf um rest s := by
        simp only [decodeMembers, hk]
      have hr : rawsFor keyOf k ((key, raw) :: rest) = rawsFor keyOf k rest := by
        simp [rawsFor, hk]
      rw [hd] at h ⊢
      rw [hr]
      exact ih s h
    | some k0 =>
      cases he : (Field.UnmarshalJSON (um k0) (s k0) raw).2 with
      | some err =>
        have hd : (decodeMembers keyOf um ((key, raw) :: rest) s).2 = some err := by
          simp only [decodeMembers, hk, he]
        rw [hd] at h
        exact absurd h (by simp)
      | none =>
        have hd : decodeMembers keyOf um ((key, raw) :: rest) s
            = decodeMembers keyOf um rest
                (Function.update s k0 (Field.UnmarshalJSON (um k0) (s k0) raw).1) := by
          simp only [decodeMembers, hk, he]
        rw [hd] at h ⊢
        have ih1 := ih _ h
        by_cases hkk : k0 = k
        · subst hkk
          have hr : rawsFor keyOf k0 ((key, raw) :: rest) = raw :: rawsFor keyOf k0 rest := by
            simp [rawsFor, hk]
          rw [hr, Field.decodeAll_cons]
          rw [Function.update_same] at ih1
          refine ⟨ih1.1, fun _ => ?_⟩
          by_cases hne : rawsFor keyOf k0 rest = []
          · rw [ih1.1, hne]
            have hv := Field.UnmarshalJSON_valid_eq (um k0) (s k0) raw
            rw [Field.UnmarshalJSON_error_eq] at he
            rw [he] at hv
            simpa [Field.decodeAll] using hv
          · exact ih1.2 hne
        · have hr : rawsFor keyOf k ((key, raw) :: rest) = rawsFor keyOf k rest := by
            have : ¬ (some k0 = some k) := fun h2 => hkk (Option.some.inj h2)
            simp [rawsFor, hk, this]
          rw [hr]
          rw [Function.update_noteq (Ne.symm hkk)] at ih1
          exact ih1

theorem rawsFor_eq_nil_iff {K : Type} [DecidableEq K] (keyOf : Bytes → Option K) (k : K)
    (obj : List (Bytes × Bytes)) :
    rawsFor keyOf k obj = [] ↔ ∀ e ∈ obj, keyOf e.1 ≠ some k := by
  simp [rawsFor, List.filterMap_eq_nil_iff]

/-- C7: when the object decoder, which calls `UnmarshalJSON` on a member exactly
for the entries whose key names it, decodes into a fresh structure and returns
no error, then for each member `k`: `Valid` is true if and only if its key
occurs in the object; if the key does not occur the member is still fresh
(`Valid = false`, zero `Value`); if the key occurs once, `Value` is what the
decoder made of the raw value, the zero value included; in general the member
is what the successive calls on its raw values leave. -/
theorem presence_detection {K : Type} [DecidableEq K] {T : K → Type} {E : Type}
    (keyOf : Bytes → Option K) (um : (k : K) → Unmarshal (T k) E) (zero : (k : K) → T k)
    (obj : List (Bytes × Bytes))
    (h : (decodeMembers keyOf um obj (Members.fresh zero)).2 = none) (k : K) :
    (((decodeMembers keyOf um obj (Members.fresh zero)).1 k).Valid = true
        ↔ ∃ e ∈ obj, keyOf e.1 = some k)
      ∧ ((∀ e ∈ obj, keyOf e.1 ≠ some k) →
          (decodeMembers keyOf um obj (Members.fresh zero)).1 k = Field.fresh (zero k))
      ∧ (∀ raw, rawsFor keyOf k obj = [raw] →
          ((decodeMembers keyOf um obj (Members.fresh zero)).1 k).Value = (um k raw (zero k)).1)
      ∧ (decodeMembers keyOf um obj (Members.fresh zero)).1 k
          = Field.decodeAll (um k) (Field.fresh (zero k)) (rawsFor keyOf k obj) := by
  have hm := decodeMembers_of_ok keyOf um obj (Members.fresh zero) h k
  have hfresh : (Members.fresh zero : Members T) k = Field.fresh (zero k) := rfl
  rw [hfresh] at hm
  refine ⟨⟨fun hv => ?_, fun hex => ?_⟩, fun habs => ?_, fun raw hraw => ?_, hm.1⟩
  · by_contra hno
    have hnil : rawsFor keyOf k obj = [] := by
      rw [rawsFor_eq_nil_iff]
      intro e he hk
      exact hno ⟨e, he, hk⟩
    rw [hm.1, hnil] at hv
    simp [Field.decodeAll, Field.fresh] at hv
  · apply hm.2
    intro hnil
    rw [rawsFor_eq_nil_iff] at hnil
    obtain ⟨e, he, hk⟩ := hex
    exact hnil e he hk
  · rw [hm.1, (rawsFor_eq_nil_iff keyOf k obj).2 habs]
    rfl
  · rw [hm.1, hraw, Field.decodeAll_cons]
    show (Field.UnmarshalJSON (um k) (Field.fresh (zero k)) raw).1.Value = _
    rw [Field.UnmarshalJSON_value_eq]
    rfl

/-- Instance of C7 on the structure `{ Name Field[string]; Age Field[int] }`:
the members of `{"name":"Ann"}` decode without error, and the theorem applies
to member `Age`. Decoding the whole object text gives `Name = ("Ann", true)`
and `Age = (0, false)`; decoding `{"age":0}` gives `Age = (0, true)` and
`Name = ("", false)`. -/
theorem presence_detection_witness :
    (decodeMembers PersonKey.keyOf PersonKey.unmarshal
        (objectMembers (ascii "\x7b\"name\":\"Ann\"\x7d")) (Members.fresh PersonKey.zero)).2 = none
      ∧ (decodeMembers PersonKey.keyOf PersonKey.unmarshal
          (objectMembers (ascii "\x7b\"name\":\"Ann\"\x7d")) (Members.fresh PersonKey.zero)).1
            PersonKey.Age = Field.fresh (PersonKey.zero PersonKey.Age)
      ∧ (unmarshalPerson (ascii "\x7b\"name\":\"Ann\"\x7d") Person.fresh).2 = none
      ∧ (unmarshalPerson (ascii "\x7b\"name\":\"Ann\"\x7d") Person.fresh).1 PersonKey.Name
          = { Value := ascii "Ann", Valid := true }
      ∧ (unmarshalPerson (ascii "\x7b\"name\":\"Ann\"\x7d") Person.fresh).1 PersonKey.Age
          = { Value := (0 : Int), Valid := false }
      ∧ (unmarshalPerson (ascii "\x7b\"age\":0\x7d") Person.fresh).2 = none
      ∧ (unmarshalPerson (ascii "\x7b\"age\":0\x7d") Person.fresh).1 PersonKey.Age
          = { Value := (0 : Int), Valid := true }
      ∧ (unmarshalPerson (ascii "\x7b\"age\":0\x7d") Person.fresh).1 PersonKey.Name
          = { Value := ([] : Bytes), Valid := false } :=
  ⟨by decide,
   (presence_detection PersonKey.keyOf PersonKey.unmarshal PersonKey.zero
      (objectMembers (ascii "\x7b\"name\":\"Ann\"\x7d")) (by decide) PersonKey.Age).2.1
      (by decide),
   by decide, by decide, by decide, by decide, by decide, by decide⟩

/-! ## Sequences of calls: invariant, monotonicity, repeated decode -/

/-- C8 fails as stated: starting from the fresh field whose payload is the
structure `{ Name Field[string]; Age Field[int] }`, one `UnmarshalJSON` call
with `{"age":7,"name":3}` fails on `name` after `age` was stored. The reached
state has `Valid = false` and a `Value` that is not the zero value. -/
theorem Valid_false_with_nonzero_Value :
    (Field.decodeAll unmarshalPerson (Field.fresh Person.fresh)
        [ascii "\x7b\"age\":7,\"name\":3\x7d"]).Valid = false
      ∧ (Field.decodeAll unmarshalPerson (Field.fresh Person.fresh)
          [ascii "\x7b\"age\":7,\"name\":3\x7d"]).Value ≠ Person.fresh := by
  refine ⟨by decide, fun h => ?_⟩
  have hv := congrArg (fun p : Person => (p PersonKey.Age).Value) h
  revert hv
  decide

/-- C8 as amended: when the underlying decoder leaves its target as it was
whenever it fails, every state reached from the fresh field by a finite
sequence of `UnmarshalJSON` calls with `Valid = false` has the zero `Value`. -/
theorem Valid_false_zero_Value {T E : Type} (um : Unmarshal T E) (zero : T)
    (hkeep : ∀ b v, (um b v).2 ≠ none → (um b v).1 = v) (inputs : List Bytes)
    (hv : (Field.decodeAll um (Field.fresh zero) inputs).Valid = false) :
    (Field.decodeAll um (Field.fresh zero) inputs).Value = zero := by
  have key : ∀ (inputs : List Bytes) (f : Field T), (f.Valid = false → f.Value = zero) →
      (Field.decodeAll um f inputs).Valid = false → (Field.decodeAll um f inputs).Value = zero := by
    intro inputs
    induction inputs with
    | nil => exact fun f hf h => hf h
    | cons b rest ih =>
      intro f hf h
      rw [Field.decodeAll_cons] at h ⊢
      refine ih _ (fun hg => ?_) h
      rw [Field.UnmarshalJSON_valid_eq] at hg
      rw [Field.UnmarshalJSON_value_eq]
      have hf0 : f.Valid = false := by
        cases hfv : f.Valid <;> simp_all
      have herr : (um b f.Value).2 ≠ none := by
        intro hn
        rw [hn, hf0] at hg
        simp at hg
      rw [hkeep b f.Value herr]
      exact hf hf0
  exact key inputs (Field.fresh zero) (fun _ => rfl) hv

/-- Instance of C8 as amended: three failing decodes into a fresh `Field[int]`
leave `Valid = false` and `Value = 0`. -/
theorem Valid_false_zero_Value_witness :
    (Field.decodeAll unmarshalInt (Field.fresh 0)
        [ascii "\"oops\"", ascii "1.5", ascii "\x7b"]).Valid = false
      ∧ (Field.decodeAll unmarshalInt (Field.fresh 0)
          [ascii "\"oops\"", ascii "1.5", ascii "\x7b"]).Value = 0 :=
  ⟨by decide,
   Valid_false_zero_Value unmarshalInt 0 unmarshalInt_keeps_on_error
     [ascii "\"oops\"", ascii "1.5", ascii "\x7b"] (by decide)⟩

theorem Field.run_cons {T E : Type} (m : Marshal T E) (um : Unmarshal T E) (f : Field T)
    (c : Call) (cs : List Call) :
    Field.run m um f (c :: cs) = Field.run m um (Field.step m um f c) cs := rfl

/-- C9: a field with `Valid = true` still has `Valid = true` after
`UnmarshalJSON` with any bytes, whether the call succeeds or fails, and after any
sequence of `MarshalJSON` and `UnmarshalJSON` calls. -/
theorem Valid_never_reset {T E : Type} (m : Marshal T E) (um : Unmarshal T E) (f : Field T)
    (h : f.Valid = true) :
    (∀ b : Bytes, (Field.UnmarshalJSON um f b).1.Valid = true)
      ∧ (∀ calls : List Call, (Field.run m um f calls).Valid = true) := by
  have one : ∀ (g : Field T) (b : Bytes), g.Valid = true →
      (Field.UnmarshalJSON um g b).1.Valid = true := by
    intro g b hg
    rw [Field.UnmarshalJSON_valid_eq, hg]
    rfl
  refine ⟨fun b => one f b h, fun calls => ?_⟩
  induction calls generalizing f with
  | nil => exact h
  | cons c rest ih =>
    rw [Field.run_cons]
    apply ih
    cases c with
    | marshal => exact h
    | unmarshal b => exact one f b h

/-- Instance of C9: a `Field[int]` holding `5` with `Valid = true` keeps
`Valid = true` after a failing decode and after a mixed sequence of calls. -/
theorem Valid_never_reset_witness :
    ({ Value := 5, Valid := true } : Field Int).Valid = true
      ∧ (Field.UnmarshalJSON unmarshalInt { Value := 5, Valid := true }
          (ascii "\"oops\"")).1.Valid = true
      ∧ (Field.run marshalInt unmarshalInt { Value := 5, Valid := true }
          [Call.unmarshal (ascii "x"), Call.marshal, Call.unmarshal (ascii "null"),
           Call.unmarshal (ascii "7"), Call.unmarshal (ascii "[")]).Valid = true :=
  ⟨rfl,
   (Valid_never_reset marshalInt unmarshalInt { Value := 5, Valid := true } rfl).1 _,
   (Valid_never_reset marshalInt unmarshalInt { Value := 5, Valid := true } rfl).2 _⟩

/-- C10 fails as stated: for a payload type whose own decoder counts its calls,
`UnmarshalJSON` with `1` succeeds, and calling it twice leaves `Value = 2`
where calling it once leaves `Value = 1`. -/
theorem decode_twice_differs :
    (Field.UnmarshalJSON unmarshalCounter (Field.fresh 0) (ascii "1")).2 = none
      ∧ (Field.decodeAll unmarshalCounter (Field.fresh 0) [ascii "1", ascii "1"]).Value
        ≠ (Field.decodeAll unmarshalCounter (Field.fresh 0) [ascii "1"]).Value := by
  decide

/-- C10 as amended: when `b` decodes successfully, calling `UnmarshalJSON` twice
in succession leaves the same `Valid` (true) as calling it once, and `Value` is
the underlying decoder applied again to its own output; so the field is the
same after two calls as after one whenever the underlying decoder, given `b`
and its own output as target, leaves that output in place. -/
theorem decode_twice {T E : Type} (um : Unmarshal T E) (f : Field T) (b : Bytes)
    (h : (um b f.Value).2 = none) :
    (Field.decodeAll um f [b, b]).Valid = (Field.decodeAll um f [b]).Valid
      ∧ (Field.decodeAll um f [b]).Valid = true
      ∧ (Field.decodeAll um f [b, b]).Value = (um b (um b f.Value).1).1
      ∧ ((um b (um b f.Value).1).1 = (um b f.Value).1 →
          Field.decodeAll um f [b, b] = Field.decodeAll um f [b]) := by
  have h1 : Field.decodeAll um f [b] = { Value := (um b f.Value).1, Valid := true } := by
    show (Field.UnmarshalJSON um f b).1 = _
    rw [Field.UnmarshalJSON_of_ok um f b h]
  have h2 : Field.decodeAll um f [b, b]
      = (Field.UnmarshalJSON um { Value := (um b f.Value).1, Valid := true } b).1 := by
    show (Field.UnmarshalJSON um (Field.UnmarshalJSON um f b).1 b).1 = _
    rw [Field.UnmarshalJSON_of_ok um f b h]
  have hvalid : (Field.decodeAll um f [b, b]).Valid = true := by
    rw [h2, Field.UnmarshalJSON_valid_eq]
    rfl
  have hvalue : (Field.decodeAll um f [b, b]).Value = (um b (um b f.Value).1).1 := by
    rw [h2, Field.UnmarshalJSON_value_eq]
  refine ⟨?_, ?_, hvalue, fun hsame => ?_⟩
  · rw [hvalid, h1]
  · rw [h1]
  · have e1 : Field.decodeAll um f [b, b]
        = { Value := (Field.decodeAll um f [b, b]).Value,
            Valid := (Field.decodeAll um f [b, b]).Valid } := rfl
    rw [e1, hvalue, hvalid, hsame, h1]

/-- Instance of C10 as amended: decoding `7`, and decoding `null`, twice into a
`Field[int]` holding `3` leaves the same field as decoding it once. -/
theorem decode_twice_witness :
    (unmarshalInt (ascii "7") 3).2 = none
      ∧ Field.decodeAll unmarshalInt { Value := 3, Valid := false } [ascii "7", ascii "7"]
          = Field.decodeAll unmarshalInt { Value := 3, Valid := false } [ascii "7"]
      ∧ Field.decodeAll unmarshalInt { Value := 3, Valid := false } [ascii "7"]
          = { Value := 7, Valid := true }
      ∧ Field.decodeAll unmarshalInt { Value := 3, Valid := false } [ascii "null", ascii "null"]
          = { Value := 3, Valid := true } :=
  ⟨by decide,
   (decode_twice unmarshalInt { Value := 3, Valid := false } (ascii "7") (by decide)).2.2.2
     (by decide),
   by decide, by decide⟩

/-! ## Errors, dependence on the prior state, and decodes that change nothing -/

/-- The decoder for `int`, given `null`, returns no error and leaves its target
as it was. -/
theorem unmarshalInt_null (v : Int) : unmarshalInt (ascii "null") v = (v, none) := by
  have h1 : checkValid (ascii "null") = true := by decide
  have h2 : kindOf (valueBytes (ascii "null")) = "null" := by decide
  simp [unmarshalInt, h1, h2]

/-- The decoder for `string`, given `null`, returns no error and leaves its
target as it was. -/
theorem unmarshalString_null (v : Bytes) : unmarshalString (ascii "null") v = (v, none) := by
  have h1 : checkValid (ascii "null") = true := by decide
  have h2 : kindOf (valueBytes (ascii "null")) = "null" := by decide
  simp [unmarshalString, h1, h2]

/-- When the decoder for `int` succeeds on a value other than `null`, what it
stores does not depend on what the target held. -/
theorem unmarshalInt_overwrites (b : Bytes) (v1 v2 : Int)
    (h : (unmarshalInt b v1).2 = none) (hk : (kindOf (valueBytes b) == "null") = false) :
    (unmarshalInt b v1).1 = (unmarshalInt b v2).1 := by
  unfold unmarshalInt at h ⊢
  dsimp only at h ⊢
  rw [hk] at h ⊢
  split_ifs at h ⊢ with h1 h2 <;> cases hp : parseInt (valueBytes b) <;> simp_all

/-- C11: for every field `f` and byte string `b`, `UnmarshalJSON` returns an
error if and only if the underlying decoder does, and the returned error is
that same error; the result of `MarshalJSON`, and so its error, is exactly that
of the underlying encoder applied to `f.Value`. -/
theorem errors_verbatim {T E : Type} (m : Marshal T E) (um : Unmarshal T E) (f : Field T)
    (b : Bytes) :
    (Field.UnmarshalJSON um f b).2 = (um b f.Value).2
      ∧ ((Field.UnmarshalJSON um f b).2 ≠ none ↔ (um b f.Value).2 ≠ none)
      ∧ (∀ e : E, (Field.UnmarshalJSON um f b).2 = some e ↔ (um b f.Value).2 = some e)
      ∧ (∀ e : E, Field.MarshalJSON m f = Except.error e ↔ m f.Value = Except.error e) := by
  have h := Field.UnmarshalJSON_error_eq um f b
  refine ⟨h, ?_, fun e => ?_, fun e => Iff.rfl⟩
  · rw [h]
  · rw [h]

/-- C12 fails as stated: `null` decodes successfully into a `Field[int]` holding
`1` and into one holding `2`, and the two resulting fields have different
`Value`s: each keeps what it held before the call. -/
theorem prior_Value_survives_null :
    (Field.UnmarshalJSON unmarshalInt { Value := 1, Valid := false } (ascii "null")).2 = none
      ∧ (Field.UnmarshalJSON unmarshalInt { Value := 2, Valid := false } (ascii "null")).2 = none
      ∧ (Field.UnmarshalJSON unmarshalInt { Value := 1, Valid := false } (ascii "null")).1.Value
        ≠ (Field.UnmarshalJSON unmarshalInt { Value := 2, Valid := false }
            (ascii "null")).1.Value := by
  decide

/-- C12 as amended: when `UnmarshalJSON` succeeds with `b` on two pre-call states,
both resulting fields have `Valid = true`, and each `Value` is what the
underlying decoder left in that field's own target; so the two resulting fields
are equal whenever the underlying decoder stores the same value into both
targets. -/
theorem success_from_two_states {T E : Type} (um : Unmarshal T E) (f1 f2 : Field T) (b : Bytes)
    (h1 : (Field.UnmarshalJSON um f1 b).2 = none)
    (h2 : (Field.UnmarshalJSON um f2 b).2 = none) :
    (Field.UnmarshalJSON um f1 b).1.Valid = (Field.UnmarshalJSON um f2 b).1.Valid
      ∧ (Field.UnmarshalJSON um f1 b).1.Valid = true
      ∧ (Field.UnmarshalJSON um f1 b).1.Value = (um b f1.Value).1
      ∧ (Field.UnmarshalJSON um f2 b).1.Value = (um b f2.Value).1
      ∧ ((um b f1.Value).1 = (um b f2.Value).1 →
          (Field.UnmarshalJSON um f1 b).1 = (Field.UnmarshalJSON um f2 b).1) := by
  rw [Field.UnmarshalJSON_error_eq] at h1 h2
  rw [Field.UnmarshalJSON_of_ok um f1 b h1, Field.UnmarshalJSON_of_ok um f2 b h2]
  refine ⟨rfl, rfl, rfl, rfl, fun hsame => ?_⟩
  simp only [hsame]

/-- Instance of C12 as amended: `7` decoded into a `Field[int]` holding `1` with
`Valid = false` and into one holding `2` with `Valid = true` leaves the same
field, `Value = 7` and `Valid = true`. -/
theorem success_from_two_states_witness :
    (Field.UnmarshalJSON unmarshalInt { Value := 1, Valid := false } (ascii "7")).2 = none
      ∧ (Field.UnmarshalJSON unmarshalInt { Value := 2, Valid := true } (ascii "7")).2 = none
      ∧ (Field.UnmarshalJSON unmarshalInt { Value := 1, Valid := false } (ascii "7")).1
          = (Field.UnmarshalJSON unmarshalInt { Value := 2, Valid := true } (ascii "7")).1
      ∧ (Field.UnmarshalJSON unmarshalInt { Value := 1, Valid := false } (ascii "7")).1
          = { Value := 7, Valid := true } :=
  ⟨by decide, by decide,
   (success_from_two_states unmarshalInt { Value := 1, Valid := false }
      { Value := 2, Valid := true } (ascii "7") (by decide) (by decide)).2.2.2.2
      (unmarshalInt_overwrites (ascii "7") 1 2 (by decide) (by decide)),
   by decide⟩

/-- C13: for every field `f` and byte string `b` for which the underlying
decoder succeeds without modifying the target, `UnmarshalJSON` returns no error,
leaves `Value` equal to its pre-call value, and sets `Valid = true`. -/
theorem unchanged_payload_marks_present {T E : Type} (um : Unmarshal T E) (f : Field T)
    (b : Bytes) (h : um b f.Value = (f.Value, none)) :
    (Field.UnmarshalJSON um f b).2 = none
      ∧ (Field.UnmarshalJSON um f b).1.Value = f.Value
      ∧ (Field.UnmarshalJSON um f b).1.Valid = true := by
  have hok : (um b f.Value).2 = none := by rw [h]
  rw [Field.UnmarshalJSON_of_ok um f b hok, h]
  exact ⟨rfl, rfl, rfl⟩

/-- Instance of C13: `null` decoded into a fresh `Field[int]` holding `7`, and
into a fresh `Field[string]` holding `Ann`, returns no error, keeps the `Value`
and sets `Valid = true`. -/
theorem unchanged_payload_marks_present_witness :
    unmarshalInt (ascii "null") 7 = (7, none)
      ∧ ((Field.UnmarshalJSON unmarshalInt { Value := 7, Valid := false } (ascii "null")).2 = none
        ∧ (Field.UnmarshalJSON unmarshalInt { Value := 7, Valid := false } (ascii "null")).1.Value
            = 7
        ∧ (Field.UnmarshalJSON unmarshalInt { Value := 7, Valid := false } (ascii "null")).1.Valid
            = true)
      ∧ Field.UnmarshalJSON unmarshalString { Value := ascii "Ann", Valid := false } (ascii "null")
          = ({ Value := ascii "Ann", Valid := true }, none) :=
  ⟨unmarshalInt_null 7,
   unchanged_payload_marks_present unmarshalInt { Value := 7, Valid := false } (ascii "null")
     (unmarshalInt_null 7),
   by decide⟩

end patch
